import Mathlib

/-!
Verification of the judging pipeline and ranking engine of the online-judge
server (src/oj-tbd21/src/main.rs) against its natural-language specification.

The Rust code is shallowly embedded: process execution (compilation, the run
of a test case, the external special-judge process) is abstracted into
records of outcomes (exit status, elapsed time, produced output) supplied as
inputs, and the pure classification / aggregation / ranking logic is
translated function by function from the source.  f32 scores are modelled as
rationals, u128 times as naturals, DateTime timestamps as integers, and text
as lists of characters (so that every definition evaluates inside the
kernel); the source field dynamic_ranking_ratio is rendered as
dynamic_ranking_frac.
-/

namespace OJ

/-- Text is modelled as its list of characters. -/
abbrev Str := List Char

/-- Problem judging modes, from enum ProblemType (main.rs). -/
inductive ProblemType
  | Standard
  | Strict
  | Spj
  | DynamicRanking
deriving DecidableEq, Repr

/-- Job states, from enum OjState (main.rs). -/
inductive OjState
  | Queueing
  | Running
  | Finished
  | Canceled
deriving DecidableEq, Repr

/-- Case / job verdicts, from enum OjResult (main.rs). -/
inductive OjResult
  | Waiting
  | Running
  | Accepted
  | CompilationError
  | CompilationSuccess
  | WrongAnswer
  | RuntimeError
  | TimeLimitExceeded
  | MemoryLimitExceeded
  | SystemError
  | SpjError
  | Skipped
deriving DecidableEq, Repr

/-- A test case's configuration, from struct Case (main.rs).
The f32 score weight is modelled as a rational. -/
structure Case where
  score : ℚ
  input_file : Str
  answer_file : Str
  time_limit : ℕ
  memory_limit : ℕ
deriving DecidableEq, Repr

/-- Per-case judging record, from struct CaseResult (main.rs). -/
structure CaseResult where
  id : ℕ
  result : OjResult
  time : ℕ
  memory : ℕ
  info : Str
deriving DecidableEq, Repr

/-- Mode-specific settings, from struct Misc (main.rs); the f32 field
dynamic_ranking_ratio of the source is dynamic_ranking_frac here. -/
structure Misc where
  special_judge : Option (List Str)
  dynamic_ranking_frac : Option ℚ
deriving DecidableEq, Repr

/-- Problem configuration, from struct Problem (main.rs). -/
structure Problem where
  id : ℕ
  name : Str
  problem_type : ProblemType
  misc : Misc
  cases : List Case
deriving DecidableEq, Repr

/-- A submission, from struct Submission (main.rs). -/
structure Submission where
  source_code : Str
  language : Str
  user_id : ℕ
  contest_id : ℕ
  problem_id : ℕ
deriving DecidableEq, Repr

/-- A judged job, from struct Job (main.rs).  Timestamps are integers. -/
structure Job where
  id : ℕ
  created_time : ℤ
  updated_time : ℤ
  submission : Submission
  state : OjState
  result : OjResult
  score : ℚ
  cases : List CaseResult
deriving DecidableEq, Repr

/-- A user record, from struct User (main.rs); id is optional exactly as in
the source (records read back from the database always carry some id). -/
structure User where
  id : Option ℕ
  name : Str
deriving DecidableEq, Repr

/-! ### Text primitives

Rust's str::split('\n') and str::trim, modelled on character lists. -/

/-- Rust str::split('\n'): the (possibly empty) segments between line feeds;
splitting the empty string yields one empty segment, and a trailing line
feed yields a trailing empty segment. -/
def splitNl : Str → List Str
  | [] => [[]]
  | c :: cs =>
      if c = '\n' then [] :: splitNl cs
      else match splitNl cs with
        | [] => [[c]]
        | l :: ls => (c :: l) :: ls

/-- Rust str::trim: drop whitespace from both ends. -/
def trimStr (s : Str) : Str :=
  ((s.dropWhile Char.isWhitespace).reverse.dropWhile Char.isWhitespace).reverse

/-! ### The Standard / DynamicRanking output comparison (claim C2) -/

/-- The per-case output comparison of Standard and DynamicRanking problems
(main.rs, judge, lines 775-779): split both outputs on line breaks, trim each
line, zip the two line sequences and fold conjunctively over the pairs. -/
def ojCompareLines (stdout answer : Str) : Bool :=
  (((splitNl stdout).map trimStr).zip ((splitNl answer).map trimStr)).foldl
    (fun acc lr => if acc && lr.1 == lr.2 then true else false) true

/-- The line sequence an output is reduced to by the Standard-mode
comparison: split on line breaks, trim each line. -/
def trimmedLines (s : Str) : List Str :=
  (splitNl s).map trimStr

/-- Comparison as the spec would amend it: the two trimmed line sequences
agree up to the length of the shorter one (lines beyond the shorter output
are ignored). -/
def truncCompareLines (stdout answer : Str) : Bool :=
  let n := min (trimmedLines stdout).length (trimmedLines answer).length
  (trimmedLines stdout).take n == (trimmedLines answer).take n

theorem foldl_and_pairs (l : List (Str × Str)) (b : Bool) :
    l.foldl (fun acc lr => if acc && lr.1 == lr.2 then true else false) b
      = (b && l.all (fun lr => lr.1 == lr.2)) := by
  induction l generalizing b with
  | nil => simp
  | cons hd tl ih =>
      simp only [List.foldl_cons, List.all_cons, ih]
      cases b <;> cases h : (hd.1 == hd.2) <;> simp [h]

theorem zip_all_eq_take (A B : List Str) :
    (A.zip B).all (fun lr => lr.1 == lr.2)
      = (A.take (min A.length B.length) == B.take (min A.length B.length)) := by
  induction A generalizing B with
  | nil => simp
  | cons a A ih =>
      cases B with
      | nil => simp
      | cons b B =>
          simp only [List.zip_cons_cons, List.all_cons, List.length_cons,
            Nat.succ_min_succ, List.take_succ_cons, List.cons_beq_cons, ih]

/-- C2 (counterexample): the comparison of Standard / DynamicRanking mode
deems "a\nb" and "a\nb\nc" EQUAL — the zip of the two line sequences
truncates to the shorter one, so the claimed line-count sensitivity does not
hold (while "a\nb\n" vs "a \nb" is equal as claimed). -/
theorem standard_compare_extra_lines_equal :
    ojCompareLines "a\nb".toList "a\nb\nc".toList = true ∧
      ojCompareLines "a\nb\n".toList "a \nb".toList = true := by
  constructor <;> decide

/-- C2 (amended): in Standard and DynamicRanking modes the per-case
comparison splits expected and actual output on line breaks, trims each
line, and compares the two trimmed line sequences pairwise up to the length
of the SHORTER one, ignoring any surplus lines of the longer output (so
"a\nb\n" vs "a \nb" and "a\nb" vs "a\nb\nc" both compare equal); line
counts are not compared. -/
theorem standard_compare_truncates (stdout answer : Str) :
    ojCompareLines stdout answer = truncCompareLines stdout answer := by
  unfold ojCompareLines truncCompareLines
  rw [foldl_and_pairs, Bool.true_and, zip_all_eq_take]
  simp [trimmedLines]

/-! ### The judge engine (claims C1, C5, C6, C8)

Process execution is abstracted: a CompileExec record carries the outcome of
the compilation child process, and a CaseExec record carries, for one test
case, the outcome of the run child process (elapsed time in microseconds,
exit status, the content written to the output file, captured stderr), the
content of the case's answer file, and — for Spj problems — the outcome of
the special-judge child process.  Everything else in judge (main.rs lines
623-933) is translated directly. -/

/-- Outcome of the compilation child process. -/
structure CompileExec where
  duration : ℕ
  exit_ok : Bool
  stderr : Str
deriving DecidableEq, Repr

/-- Outcome of one test case's child processes and the case's file inputs. -/
structure CaseExec where
  duration : ℕ
  exit_ok : Bool
  stdout : Str
  stderr : Str
  answer : Str
  spj_exit_ok : Bool
  spj_stdout : Str
deriving DecidableEq, Repr

/-- Parsing of the special judge's stdout (main.rs lines 852-856): split on
line breaks, trim each line, discard empty lines. -/
def spjLines (s : Str) : List Str :=
  ((splitNl s).map trimStr).filter (fun l => !l.isEmpty)

/-- The result-kind tokens recognised in the special judge's first output
line: serde deserialization of a JSON string into OjResult, using the serde
rename of each variant (main.rs lines 100-130 and 870). -/
def ojResultOfToken (s : Str) : Option OjResult :=
  if s = "Waiting".toList then some .Waiting
  else if s = "Running".toList then some .Running
  else if s = "Accepted".toList then some .Accepted
  else if s = "Compilation Error".toList then some .CompilationError
  else if s = "Compilation Success".toList then some .CompilationSuccess
  else if s = "Wrong Answer".toList then some .WrongAnswer
  else if s = "Runtime Error".toList then some .RuntimeError
  else if s = "Time Limit Exceeded".toList then some .TimeLimitExceeded
  else if s = "Memory Limit Exceeded".toList then some .MemoryLimitExceeded
  else if s = "System Error".toList then some .SystemError
  else if s = "SPJ Error".toList then some .SpjError
  else if s = "Skipped".toList then some .Skipped
  else none

/-- The classification of one test case once its child process has exited
(main.rs lines 758-916), given the running total score and running overall
result: runtime error first, then the comparison of the problem's mode. -/
def classifyCase (problem : Problem) (i : ℕ) (case : Case) (ex : CaseExec)
    (score : ℚ) (result : OjResult) : CaseResult × ℚ × OjResult :=
  if ex.exit_ok = false then
    ({ id := i + 1, result := .RuntimeError, time := ex.duration, memory := 0,
       info := ex.stderr },
     score,
     match result with
     | .Accepted => .RuntimeError
     | r => r)
  else
    match problem.problem_type with
    | .Standard | .DynamicRanking =>
        if ojCompareLines ex.stdout ex.answer then
          ({ id := i + 1, result := .Accepted, time := ex.duration, memory := 0,
             info := ex.stdout },
           score + case.score, result)
        else
          ({ id := i + 1, result := .WrongAnswer, time := ex.duration, memory := 0,
             info := ex.stdout },
           score,
           match result with
           | .Accepted => .WrongAnswer
           | r => r)
    | .Strict =>
        if ex.stdout = ex.answer then
          ({ id := i + 1, result := .Accepted, time := ex.duration, memory := 0,
             info := ex.stdout },
           score + case.score, result)
        else
          ({ id := i + 1, result := .WrongAnswer, time := ex.duration, memory := 0,
             info := ex.stdout },
           score,
           match result with
           | .Accepted => .WrongAnswer
           | r => r)
    | .Spj =>
        match problem.misc.special_judge with
        | some _cmd =>
            if ex.spj_exit_ok = false then
              ({ id := i + 1, result := .SpjError, time := ex.duration, memory := 0,
                 info := "Error occurred while calling the special judger".toList },
               score,
               match result with
               | .Accepted => .SpjError
               | r => r)
            else
              -- the source checks stdout.len() == 2 and then reads stdout[0]
              -- and stdout[1]; here that is a match on the two-element shape
              match spjLines ex.spj_stdout with
              | [l0, l1] =>
                  (match ojResultOfToken l0 with
                  | some spj_result =>
                      match spj_result with
                      | .Accepted =>
                          ({ id := i + 1, result := .Accepted, time := ex.duration,
                             memory := 0, info := l1 },
                           score + case.score, result)
                      | other =>
                          ({ id := i + 1, result := other, time := ex.duration,
                             memory := 0, info := l1 },
                           score,
                           -- source line 883 matches on spj_result, not on the
                           -- running result, so the running result is replaced
                           match other with
                           | .Accepted => other
                           | r => r)
                  | none =>
                      -- source lines 896-903: the running result is not updated
                      ({ id := i + 1, result := .SpjError, time := ex.duration,
                         memory := 0, info := "Invalid special judge output.".toList },
                       score, result))
              | _ =>
                  ({ id := i + 1, result := .SpjError, time := ex.duration, memory := 0,
                     info := "Invalid special judge output.".toList },
                   score,
                   match result with
                   | .Accepted => .SpjError
                   | r => r)
        | none =>
            -- source lines 907-913: the running result is not updated
            ({ id := i + 1, result := .SpjError, time := ex.duration, memory := 0,
               info := "Special judge command not found".toList },
             score, result)

/-- One iteration of the per-case loop of judge (main.rs lines 714-917).
The deadline supervision of the polling loop (lines 728-751) is rendered as:
the TimeLimitExceeded branch fires exactly when the case has a non-zero time
limit and the child's run exceeds it; the recorded time is then the
configured limit itself.  Otherwise the case is classified by
classifyCase. -/
def runCase (problem : Problem) (i : ℕ) (case : Case) (ex : CaseExec)
    (score : ℚ) (result : OjResult) : CaseResult × ℚ × OjResult :=
  if case.time_limit ≠ 0 ∧ case.time_limit < ex.duration then
    ({ id := i + 1, result := .TimeLimitExceeded, time := case.time_limit,
       memory := 0, info := "Time limit: ".toList ++ (toString case.time_limit).toList },
     score,
     match result with
     | .Accepted => .TimeLimitExceeded
     | r => r)
  else classifyCase problem i case ex score result

/-- The per-case loop of judge, starting at case index i with the given
accumulators; yields the produced CaseResult list and final accumulators. -/
def runCases (problem : Problem) (i : ℕ) (score : ℚ) (result : OjResult) :
    List (Case × CaseExec) → List CaseResult × ℚ × OjResult
  | [] => ([], score, result)
  | (c, ex) :: rest =>
      let step := runCase problem i c ex score result
      let tail := runCases problem (i + 1) step.2.1 step.2.2 rest
      (step.1 :: tail.1, tail.2)

/-- The judge engine (main.rs, judge): compiles (outcome given by compile),
then — unless compilation failed — runs every case in order.  The problem is
passed directly (the source resolves it from the configuration by the
submission's problem id; the handler guarantees it exists), and execs lists
the per-case process outcomes. -/
def judge (id : ℕ) (submission : Submission) (problem : Problem)
    (created_time updated_time : ℤ) (compile : CompileExec)
    (execs : List CaseExec) : Job :=
  if compile.exit_ok = false then
    { id := id, created_time := created_time, updated_time := updated_time,
      submission := submission, state := .Finished,
      result := .CompilationError, score := 0,
      cases := { id := 0, result := .CompilationError, time := compile.duration,
                 memory := 0, info := compile.stderr }
        :: (List.range problem.cases.length).map (fun j =>
             { id := j + 1, result := .Waiting, time := 0, memory := 0,
               info := [] }) }
  else
    let run := runCases problem 0 0 .Accepted (problem.cases.zip execs)
    { id := id, created_time := created_time, updated_time := updated_time,
      submission := submission, state := .Finished,
      result := run.2.2, score := run.2.1,
      cases := { id := 0, result := .CompilationSuccess, time := compile.duration,
                 memory := 0, info := [] }
        :: run.1 }

theorem runCases_length (problem : Problem) (i : ℕ) (score : ℚ)
    (result : OjResult) (l : List (Case × CaseExec)) :
    (runCases problem i score result l).1.length = l.length := by
  induction l generalizing i score result with
  | nil => simp [runCases]
  | cons hd tl ih => cases hd; simp [runCases, ih]

/-- C5: for every submission for which judging produces a Job — every
outcome, including compilation failure — the Job's CaseResult list has
length exactly 1 + problem.cases.len(), index 0 records the compile phase
(CompilationSuccess or CompilationError), and when compilation fails every
case goes unexecuted and is recorded as Waiting. -/
theorem judge_caseresult_shape (id : ℕ) (submission : Submission)
    (problem : Problem) (ct ut : ℤ) (compile : CompileExec)
    (execs : List CaseExec) (hlen : execs.length = problem.cases.length) :
    (judge id submission problem ct ut compile execs).cases.length
        = 1 + problem.cases.length
      ∧ (judge id submission problem ct ut compile execs).cases.head?.map
            (fun c => (c.id, c.result))
          = some (0, if compile.exit_ok = true then OjResult.CompilationSuccess
                     else OjResult.CompilationError)
      ∧ (compile.exit_ok = false →
          ∀ cr ∈ (judge id submission problem ct ut compile execs).cases.tail,
            cr.result = OjResult.Waiting) := by
  unfold judge
  cases h : compile.exit_ok <;>
    simp [h, runCases_length, List.length_zip, hlen, Nat.add_comm]

/-- C5 witness: the shape invariant instantiated on a concrete judged
submission. -/
theorem judge_caseresult_shape_witness :
    (judge 0 { source_code := [], language := [], user_id := 3,
               contest_id := 0, problem_id := 0 }
        { id := 0, name := [], problem_type := .Standard,
          misc := { special_judge := none, dynamic_ranking_frac := none },
          cases := [{ score := 100, input_file := [], answer_file := [],
                      time_limit := 0, memory_limit := 0 }] }
        0 0 { duration := 1, exit_ok := true, stderr := [] }
        [{ duration := 2, exit_ok := true, stdout := "x".toList, stderr := [],
           answer := "x".toList, spj_exit_ok := true, spj_stdout := [] }]).cases.length
      = 1 + 1 := by
  exact (judge_caseresult_shape 0 _ _ 0 0 _ _ (by decide)).1

/-- C8: a case with a non-zero time limit whose run exceeds that limit is
verdicted TimeLimitExceeded with recorded time equal to the configured limit
(not the actual overrun); a time limit of 0 disables the deadline branch
entirely, so the case is classified purely from its exit status and
output. -/
theorem time_limit_enforcement (problem : Problem) (i : ℕ) (case : Case)
    (ex : CaseExec) (score : ℚ) (result : OjResult) :
    (case.time_limit ≠ 0 → case.time_limit < ex.duration →
        (runCase problem i case ex score result).1.result
            = OjResult.TimeLimitExceeded
          ∧ (runCase problem i case ex score result).1.time = case.time_limit)
      ∧ (case.time_limit = 0 →
          runCase problem i case ex score result
            = classifyCase problem i case ex score result) := by
  constructor
  · intro h1 h2
    simp [runCase, h1, h2]
  · intro h0
    simp [runCase, h0]

/-- C8 witness: time-limit enforcement instantiated on a concrete case with
limit 500000 exceeded by the run. -/
theorem time_limit_enforcement_witness :
    (runCase
        { id := 0, name := [], problem_type := .Standard,
          misc := { special_judge := none, dynamic_ranking_frac := none },
          cases := [] }
        0
        { score := 100, input_file := [], answer_file := [],
          time_limit := 500000, memory_limit := 0 }
        { duration := 600000, exit_ok := true, stdout := [], stderr := [],
          answer := [], spj_exit_ok := true, spj_stdout := [] }
        0 .Accepted).1.result = OjResult.TimeLimitExceeded := by
  exact ((time_limit_enforcement _ 0 _ _ 0 .Accepted).1 (by decide) (by decide)).1

/-- C6: the special-judge protocol.  With a configured verifier that exits
successfully and prints "Accepted\nok\n", the case verdict is Accepted with
info "ok"; each failure mode — verifier command absent from the problem
configuration, verifier exiting non-zero, output not parsing into exactly
two non-empty trimmed lines, unrecognised first token — yields the SpjError
case verdict (the ExternalVerifierError of the spec). -/
theorem spj_protocol (problem : Problem) (i : ℕ) (case : Case) (ex : CaseExec)
    (score : ℚ) (result : OjResult) (hspj : problem.problem_type = .Spj)
    (hok : ex.exit_ok = true) :
    (problem.misc.special_judge.isSome → ex.spj_exit_ok = true →
        ex.spj_stdout = "Accepted\nok\n".toList →
        (classifyCase problem i case ex score result).1.result = OjResult.Accepted
          ∧ (classifyCase problem i case ex score result).1.info = "ok".toList)
      ∧ (problem.misc.special_judge = none →
          (classifyCase problem i case ex score result).1.result = OjResult.SpjError)
      ∧ (problem.misc.special_judge.isSome → ex.spj_exit_ok = false →
          (classifyCase problem i case ex score result).1.result = OjResult.SpjError)
      ∧ (problem.misc.special_judge.isSome → ex.spj_exit_ok = true →
          (spjLines ex.spj_stdout).length ≠ 2 →
          (classifyCase problem i case ex score result).1.result = OjResult.SpjError)
      ∧ (∀ l0 l1, problem.misc.special_judge.isSome → ex.spj_exit_ok = true →
          spjLines ex.spj_stdout = [l0, l1] → ojResultOfToken l0 = none →
          (classifyCase problem i case ex score result).1.result = OjResult.SpjError) := by
  refine ⟨?_, ?_, ?_, ?_, ?_⟩
  · intro hcmd hvok hout
    obtain ⟨cmd, hcmd⟩ := Option.isSome_iff_exists.mp hcmd
    have hlines : spjLines "Accepted\nok\n".toList
        = ["Accepted".toList, "ok".toList] := by decide
    have htok : ojResultOfToken "Accepted".toList = some OjResult.Accepted := by decide
    simp only [classifyCase, hspj, hok, hcmd, hvok, hout, hlines, htok]
    simp
  · intro hnone
    simp [classifyCase, hspj, hok, hnone]
  · intro hcmd hvbad
    obtain ⟨cmd, hcmd⟩ := Option.isSome_iff_exists.mp hcmd
    simp [classifyCase, hspj, hok, hcmd, hvbad]
  · intro hcmd hvok hlen
    obtain ⟨cmd, hcmd⟩ := Option.isSome_iff_exists.mp hcmd
    simp only [classifyCase, hspj, hok, hcmd, hvok]
    rcases h : spjLines ex.spj_stdout with _ | ⟨l0, _ | ⟨l1, _ | _⟩⟩ <;>
      simp_all
  · intro l0 l1 hcmd hvok hlines htok
    obtain ⟨cmd, hcmd⟩ := Option.isSome_iff_exists.mp hcmd
    simp [classifyCase, hspj, hok, hcmd, hvok, hlines, htok]

/-- A minimal submission used by the concrete evaluations. -/
def sampleSubmission : Submission :=
  { source_code := [], language := "Rust".toList, user_id := 0,
    contest_id := 0, problem_id := 0 }

/-- A test case with a 1000µs time limit. -/
def spjCase1 : Case :=
  { score := 50, input_file := [], answer_file := [],
    time_limit := 1000, memory_limit := 0 }

/-- A test case with no time limit. -/
def spjCase2 : Case :=
  { score := 50, input_file := [], answer_file := [],
    time_limit := 0, memory_limit := 0 }

/-- A two-case Spj problem used by the concrete evaluations. -/
def spjProblem : Problem :=
  { id := 0, name := "p".toList, problem_type := .Spj,
    misc := { special_judge := some ["spj".toList], dynamic_ranking_frac := none },
    cases := [spjCase1, spjCase2] }

/-- A successful compilation outcome. -/
def compileOk : CompileExec := { duration := 5, exit_ok := true, stderr := [] }

/-- A case run exceeding the 1000µs limit. -/
def exTle : CaseExec :=
  { duration := 2000, exit_ok := true, stdout := [], stderr := [], answer := [],
    spj_exit_ok := true, spj_stdout := [] }

/-- A case run whose special judge prints a Wrong Answer verdict. -/
def exSpjWa : CaseExec :=
  { duration := 10, exit_ok := true, stdout := [], stderr := [], answer := [],
    spj_exit_ok := true, spj_stdout := "Wrong Answer\nbad".toList }

/-- A case run whose special judge prints an Accepted verdict. -/
def exSpjAc : CaseExec :=
  { duration := 10, exit_ok := true, stdout := [], stderr := [], answer := [],
    spj_exit_ok := true, spj_stdout := "Accepted\nok\n".toList }

/-- C6 witness: the protocol's success path instantiated on a verifier that
prints "Accepted\nok\n". -/
theorem spj_protocol_witness :
    (classifyCase spjProblem 1 spjCase2 exSpjAc 50
          OjResult.TimeLimitExceeded).1.result = OjResult.Accepted
      ∧ (classifyCase spjProblem 1 spjCase2 exSpjAc 50
          OjResult.TimeLimitExceeded).1.info = "ok".toList :=
  (spj_protocol spjProblem 1 spjCase2 exSpjAc 50
      OjResult.TimeLimitExceeded (by decide) (by decide)).1
    (by decide) (by decide) (by decide)

/-- C1 (refuting evaluation): a Spj-mode job whose first case is verdicted
TimeLimitExceeded and whose second case's verifier prints "Wrong Answer"
ends with overall result WrongAnswer — the later case's verdict replaces the
sticky first failure, because source line 883 matches on spj_result instead
of the running result; the first non-accepting case verdict is not retained
as the overall result. -/
theorem sticky_result_violated :
    (judge 0 sampleSubmission spjProblem 0 0 compileOk [exTle, exSpjWa]).cases.map
        (fun c => c.result)
      = [OjResult.CompilationSuccess, OjResult.TimeLimitExceeded,
         OjResult.WrongAnswer]
    ∧ (judge 0 sampleSubmission spjProblem 0 0 compileOk [exTle, exSpjWa]).result
      = OjResult.WrongAnswer := by
  constructor <;> decide

/-! ### Job filtering (claim C9)

Filter::apply (main.rs lines 286-402) selects all stored jobs and keeps the
ones matching each given criterion; the user_name criterion resolves the
name against the user table, passed here as a list.  The source fields from
and to are rendered as from_t and to_t (Lean keywords). -/

/-- A job filter, from struct Filter (main.rs). -/
structure Filter where
  user_id : Option ℕ
  user_name : Option Str
  contest_id : Option ℕ
  problem_id : Option ℕ
  language : Option Str
  from_t : Option ℤ
  to_t : Option ℤ
  state : Option OjState
  result : Option OjResult
deriving DecidableEq, Repr

/-- The per-job predicate of Filter::apply, each criterion in source order
(the source checks user_id twice; both occurrences are kept).  unwrap of a
stored user's id is modelled as getD 0 (stored records always carry an
id). -/
def filterKeep (users : List User) (f : Filter) (job : Job) : Bool :=
  (match f.user_name with
   | some name =>
      match users.find? (fun u => u.name == name) with
      | some u => job.submission.user_id == u.id.getD 0
      | none => true
   | none => true)
  && (match f.user_id with
      | some user_id => job.submission.user_id == user_id
      | none => true)
  && (match f.contest_id with
      | some contest_id =>
          !(job.submission.contest_id != contest_id
              && job.submission.contest_id != 0)
      | none => true)
  && (match f.problem_id with
      | some problem_id => job.submission.problem_id == problem_id
      | none => true)
  && (match f.language with
      | some language => job.submission.language == language
      | none => true)
  && (match f.user_id with
      | some user_id => job.submission.user_id == user_id
      | none => true)
  && (match f.state with
      | some state => job.state == state
      | none => true)
  && (match f.result with
      | some result => job.result == result
      | none => true)
  && (match f.from_t with
      | some t => !(job.created_time < t)
      | none => true)
  && (match f.to_t with
      | some t => !(job.created_time > t)
      | none => true)

/-- Filter::apply over a job table. -/
def filterApply (users : List User) (f : Filter) (jobs : List Job) : List Job :=
  jobs.filter (filterKeep users f)

/-- The filter the ranklist handler builds when gathering the jobs of one
(user, problem) pair under contest scope c (main.rs lines 1239-1245). -/
def gatherFilter (u c p : ℕ) : Filter :=
  { user_id := some u, user_name := none, contest_id := some c,
    problem_id := some p, language := none, from_t := none, to_t := none,
    state := none, result := none }

/-- C9 (counterexample): a job submitted with contest_id 0 (practice) is
kept by the filter of a specific contest scope (contest_id 5 here), not only
under the global scope. -/
theorem practice_job_kept_in_contest_scope :
    filterKeep []
        (gatherFilter 3 5 7)
        { id := 0, created_time := 0, updated_time := 0,
          submission := { source_code := [], language := [], user_id := 3,
                          contest_id := 0, problem_id := 7 },
          state := .Finished, result := .Accepted, score := 100, cases := [] }
      = true := by
  decide

/-- C9 (amended): gathering the jobs of a (user, problem) pair under contest
scope c keeps exactly the jobs of that user and problem whose submission
contest_id equals c OR equals 0: practice jobs are included under every
contest scope, and the global scope (c = 0) gathers exactly the practice
jobs. -/
theorem ranklist_gathering (users : List User) (u c p : ℕ) (jobs : List Job)
    (job : Job) :
    job ∈ filterApply users (gatherFilter u c p) jobs
      ↔ job ∈ jobs ∧ job.submission.user_id = u
          ∧ (job.submission.contest_id = c ∨ job.submission.contest_id = 0)
          ∧ job.submission.problem_id = p := by
  simp only [filterApply, List.mem_filter, filterKeep, gatherFilter]
  constructor
  · rintro ⟨hmem, h⟩
    simp only [Bool.and_eq_true, bne, beq_iff_eq, Bool.not_eq_true',
      beq_eq_false_iff_ne, ne_eq, Bool.not_and, Bool.or_eq_true,
      Bool.not_not] at h
    tauto
  · rintro ⟨hmem, h1, h2, h3⟩
    refine ⟨hmem, ?_⟩
    simp only [Bool.and_eq_true, bne, beq_iff_eq, Bool.not_eq_true',
      beq_eq_false_iff_ne, ne_eq, Bool.not_and, Bool.or_eq_true,
      Bool.not_not]
    tauto

/-! ### The ranking engine: ordering (claim C7)

get_contests_ranklist (main.rs lines 1184-1491) builds one UsersRanking
entry per eligible user, sorts them with a comparator (lines 1378-1401) and
reverses the list (line 1403).  Rust's sort_by is a stable sort; it is
embedded as insertion sort, which is also stable, so the two agree on every
input.  The three-way comparisons (f32 partial_cmp, integer cmp, Option cmp)
are modelled by cmp3 and ocmp below. -/

/-- Scoring rules, from enum ScoringRule (main.rs). -/
inductive ScoringRule
  | Latest
  | Highest
deriving DecidableEq, Repr

/-- Tie breakers, from enum TieBreaker (main.rs). -/
inductive TieBreaker
  | SubmissionTime
  | SubmissionCount
  | UserId
deriving DecidableEq, Repr

/-- A ranking rule, from struct RankingRule (main.rs). -/
structure RankingRule where
  scoring_rule : Option ScoringRule
  tie_breaker : Option TieBreaker
deriving DecidableEq, Repr

/-- One standings entry, from struct UsersRanking (main.rs). -/
structure UsersRanking where
  user : User
  rank : ℕ
  scores : List ℚ
  max_time : ℤ
  submission_count : ℕ
deriving DecidableEq, Repr

instance : Inhabited UsersRanking :=
  ⟨{ user := { id := none, name := [] }, rank := 0, scores := [],
     max_time := 0, submission_count := 0 }⟩

/-- A user's total: scores.iter().fold(0.0, |acc, s| acc + s). -/
def sumScores (u : UsersRanking) : ℚ :=
  u.scores.foldl (fun acc s => acc + s) 0

/-- Three-way comparison on a linear order (Rust's cmp / partial_cmp on the
types in use, all of which are totally ordered). -/
def cmp3 {α : Type _} [LinearOrder α] (x y : α) : Ordering :=
  if x < y then .lt else if x = y then .eq else .gt

/-- Rust's Option::cmp on user ids: None sorts below Some. -/
def ocmp : Option ℕ → Option ℕ → Ordering
  | none, none => .eq
  | none, some _ => .lt
  | some _, none => .gt
  | some a, some b => cmp3 a b

/-- The standings comparator (main.rs lines 1378-1401): total scores first;
on ties, the rule's tie breaker (default UserId), each tie comparison
reversed; user id (reversed) breaks remaining ties. -/
def cmpUR (tb : Option TieBreaker) (l r : UsersRanking) : Ordering :=
  match cmp3 (sumScores l) (sumScores r) with
  | .eq =>
      match tb.getD .UserId with
      | .SubmissionTime =>
          match (cmp3 l.max_time r.max_time).swap with
          | .eq => (ocmp l.user.id r.user.id).swap
          | o => o
      | .SubmissionCount =>
          match (cmp3 l.submission_count r.submission_count).swap with
          | .eq => (ocmp l.user.id r.user.id).swap
          | o => o
      | .UserId => (ocmp l.user.id r.user.id).swap
  | o => o

/-- The sort of the ranklist handler: stable ascending sort by the
comparator, then reverse (main.rs lines 1378-1403). -/
def sortStandings (tb : Option TieBreaker) (l : List UsersRanking) :
    List UsersRanking :=
  (List.insertionSort (fun a b => cmpUR tb a b ≠ Ordering.gt) l).reverse

/-- A user id as an element of WithBot ℕ (None below every Some, as in
Rust's Option ordering). -/
def idKey : Option ℕ → WithBot ℕ
  | none => ⊥
  | some n => Option.some n

/-- The sort key realising the comparator: total ascending, then the tie
field descending, then the user id descending, lexicographically. -/
def urKey (tb : TieBreaker) (u : UsersRanking) :
    ℚ ×ₗ (ℤᵒᵈ ×ₗ (WithBot ℕ)ᵒᵈ) :=
  toLex (sumScores u,
    toLex (OrderDual.toDual (match tb with
            | .SubmissionTime => u.max_time
            | .SubmissionCount => (u.submission_count : ℤ)
            | .UserId => 0),
      OrderDual.toDual (idKey u.user.id)))

theorem cmp3_eq_lt {α : Type _} [LinearOrder α] {x y : α} :
    cmp3 x y = .lt ↔ x < y := by
  unfold cmp3
  rcases lt_trichotomy x y with h | h | h
  · simp [h]
  · subst h
    simp [lt_irrefl]
  · simp [not_lt_of_lt h, ne_of_gt h]

theorem cmp3_eq_eq {α : Type _} [LinearOrder α] {x y : α} :
    cmp3 x y = .eq ↔ x = y := by
  unfold cmp3
  rcases lt_trichotomy x y with h | h | h
  · simp [h, ne_of_lt h]
  · subst h
    simp [lt_irrefl]
  · simp [not_lt_of_lt h, ne_of_gt h]

theorem cmp3_ne_gt {α : Type _} [LinearOrder α] {x y : α} :
    cmp3 x y ≠ .gt ↔ x ≤ y := by
  unfold cmp3
  rcases lt_trichotomy x y with h | h | h
  · simp [h, le_of_lt h]
  · subst h
    simp [lt_irrefl]
  · simp [not_lt_of_lt h, ne_of_gt h, not_le_of_lt h]

theorem cmp3_swap {α : Type _} [LinearOrder α] (x y : α) :
    (cmp3 x y).swap = cmp3 y x := by
  unfold cmp3
  rcases lt_trichotomy x y with h | h | h
  · simp [h, not_lt_of_lt h, ne_of_gt h, Ordering.swap]
  · subst h
    simp [lt_irrefl, Ordering.swap]
  · simp [h, not_lt_of_lt h, ne_of_gt h, Ordering.swap]

theorem cmp3_lex {α β : Type _} [LinearOrder α] [LinearOrder β]
    (x₁ x₂ : α) (y₁ y₂ : β) :
    cmp3 (α := α ×ₗ β) (toLex (x₁, y₁)) (toLex (x₂, y₂))
      = (cmp3 x₁ x₂).then (cmp3 y₁ y₂) := by
  rcases lt_trichotomy x₁ x₂ with h | h | h
  · have hl : toLex (x₁, y₁) < toLex (x₂, y₂) := by
      rw [Prod.Lex.lt_iff]
      exact Or.inl h
    have hc : cmp3 x₁ x₂ = .lt := cmp3_eq_lt.mpr h
    rw [hc, show cmp3 (α := Lex (α × β)) (toLex (x₁, y₁)) (toLex (x₂, y₂))
        = .lt from cmp3_eq_lt.mpr hl]
    rfl
  · subst h
    have h1 : (toLex (x₁, y₁) < toLex (x₁, y₂)) ↔ y₁ < y₂ := by
      rw [Prod.Lex.lt_iff]
      simp
    have h2 : (toLex (x₁, y₁) = toLex (x₁, y₂)) ↔ y₁ = y₂ := by
      simp [Prod.mk.injEq]
    have hc : cmp3 x₁ x₁ = .eq := by simp [cmp3]
    rw [hc]
    unfold cmp3
    simp only [h1, h2]
    rfl
  · have hn1 : ¬(toLex (x₁, y₁) < toLex (x₂, y₂)) := by
      rw [Prod.Lex.lt_iff]
      rintro (hlt | ⟨he, hy⟩)
      · exact absurd hlt (not_lt_of_lt h)
      · exact absurd he (ne_of_gt h)
    have hn2 : ¬(toLex (x₁, y₁) = toLex (x₂, y₂)) := by
      simp [Prod.mk.injEq]
      intro he
      exact absurd he (ne_of_gt h)
    have hc : cmp3 x₁ x₂ = .gt := by
      unfold cmp3
      simp [not_lt_of_lt h, ne_of_gt h]
    rw [hc, show cmp3 (α := Lex (α × β)) (toLex (x₁, y₁)) (toLex (x₂, y₂))
        = .gt from by unfold cmp3; simp [hn1, hn2]]
    rfl

theorem cmp3_toDual {α : Type _} [LinearOrder α] (x y : α) :
    cmp3 (OrderDual.toDual x) (OrderDual.toDual y) = (cmp3 x y).swap := by
  unfold cmp3
  rcases lt_trichotomy x y with h | h | h
  · simp [h, not_lt_of_lt h, ne_of_gt h, ne_of_lt h, Ordering.swap]
  · subst h
    simp [lt_irrefl, Ordering.swap]
  · simp [h, not_lt_of_lt h, ne_of_gt h, ne_of_lt h, Ordering.swap]

theorem cmp3_natCast (a b : ℕ) : cmp3 (a : ℤ) (b : ℤ) = cmp3 a b := by
  unfold cmp3
  simp [Int.ofNat_lt, Nat.cast_inj]

theorem ocmp_eq_cmp3_idKey (a b : Option ℕ) :
    ocmp a b = cmp3 (idKey a) (idKey b) := by
  cases a <;> cases b <;>
    simp [ocmp, idKey, cmp3, WithBot.some_eq_coe, WithBot.bot_lt_coe,
      not_lt_bot, WithBot.coe_lt_coe, WithBot.coe_inj]

theorem cmpUR_eq_cmp3_key (tb : Option TieBreaker) (l r : UsersRanking) :
    cmpUR tb l r
      = cmp3 (urKey (tb.getD .UserId) l) (urKey (tb.getD .UserId) r) := by
  have hmid : ∀ tbv : TieBreaker,
      cmp3 (urKey tbv l) (urKey tbv r)
        = (cmp3 (sumScores l) (sumScores r)).then
            (((cmp3 (match tbv with
                | .SubmissionTime => l.max_time
                | .SubmissionCount => (l.submission_count : ℤ)
                | .UserId => 0)
              (match tbv with
                | .SubmissionTime => r.max_time
                | .SubmissionCount => (r.submission_count : ℤ)
                | .UserId => 0)).swap).then ((ocmp l.user.id r.user.id).swap)) := by
    intro tbv
    unfold urKey
    rw [cmp3_lex, cmp3_lex, cmp3_toDual, cmp3_toDual, ocmp_eq_cmp3_idKey]
  cases tb with
  | none =>
      rw [Option.getD_none, hmid]
      unfold cmpUR
      simp only [Option.getD_none]
      have h0 : (cmp3 (0 : ℤ) 0).swap = Ordering.eq := by decide
      rw [h0]
      cases cmp3 (sumScores l) (sumScores r) <;> rfl
  | some tbv =>
      rw [Option.getD_some, hmid]
      unfold cmpUR
      simp only [Option.getD_some]
      cases tbv
      · cases cmp3 (sumScores l) (sumScores r) <;>
          (first
            | rfl
            | (cases (cmp3 l.max_time r.max_time).swap <;> rfl))
      · cases cmp3 (sumScores l) (sumScores r) <;>
          (first
            | rfl
            | (rw [cmp3_natCast]
               cases (cmp3 l.submission_count r.submission_count).swap <;> rfl))
      · have h0 : (cmp3 (0 : ℤ) 0).swap = Ordering.eq := by decide
        rw [h0]
        cases cmp3 (sumScores l) (sumScores r) <;> rfl

/-- The ordering the spec claims for the standings list: total score
descending; among equal totals, the tie-break key ascending (earlier max
submission time first / fewer submissions first / smaller user id first). -/
def standingsOrder (tbv : TieBreaker) (x y : UsersRanking) : Prop :=
  sumScores y < sumScores x
    ∨ (sumScores x = sumScores y ∧
        match tbv with
        | .SubmissionTime => x.max_time ≤ y.max_time
        | .SubmissionCount => x.submission_count ≤ y.submission_count
        | .UserId => idKey x.user.id ≤ idKey y.user.id)

theorem key_le_imp_standingsOrder (tbv : TieBreaker) (a b : UsersRanking)
    (h : urKey tbv a ≤ urKey tbv b) : standingsOrder tbv b a := by
  unfold urKey at h
  rw [Prod.Lex.le_iff] at h
  rcases h with h | ⟨heq, hinner⟩
  · exact Or.inl h
  · rw [Prod.Lex.le_iff] at hinner
    refine Or.inr ⟨heq.symm, ?_⟩
    rcases hinner with hmid | ⟨hmideq, hid⟩
    · rw [OrderDual.toDual_lt_toDual] at hmid
      cases tbv with
      | SubmissionTime => exact le_of_lt hmid
      | SubmissionCount =>
          have hmid' : (b.submission_count : ℤ) < (a.submission_count : ℤ) := hmid
          show b.submission_count ≤ a.submission_count
          exact_mod_cast le_of_lt hmid'
      | UserId => exact absurd hmid (lt_irrefl _)
    · rw [OrderDual.toDual_le_toDual] at hid
      have hme := OrderDual.toDual_inj.mp hmideq
      cases tbv with
      | SubmissionTime => exact le_of_eq hme.symm
      | SubmissionCount =>
          have hme' : (a.submission_count : ℤ) = (b.submission_count : ℤ) := hme
          show b.submission_count ≤ a.submission_count
          exact_mod_cast le_of_eq hme'.symm
      | UserId => exact hid

/-- C7: the standings list the ranklist handler produces — stable ascending
sort by the comparator, then reversal — is ordered by the sum of per-problem
scores descending, and among equal totals by the tie-breaker: earlier
overall max submission time first (SubmissionTime), fewer total submissions
first (SubmissionCount), smaller user id first (UserId, which is also the
default when no tie-breaker is given). -/
theorem standings_sorted (tb : Option TieBreaker) (l : List UsersRanking) :
    List.Sorted (standingsOrder (tb.getD .UserId)) (sortStandings tb l) := by
  have hiff : ∀ a b : UsersRanking,
      (cmpUR tb a b ≠ Ordering.gt)
        ↔ urKey (tb.getD .UserId) a ≤ urKey (tb.getD .UserId) b := by
    intro a b
    rw [cmpUR_eq_cmp3_key]
    exact cmp3_ne_gt
  haveI : IsTotal UsersRanking (fun a b => cmpUR tb a b ≠ Ordering.gt) :=
    ⟨fun a b => by
      rw [hiff, hiff]
      exact le_total _ _⟩
  haveI : IsTrans UsersRanking (fun a b => cmpUR tb a b ≠ Ordering.gt) :=
    ⟨fun a b c hab hbc =>
      (hiff a c).mpr (le_trans ((hiff a b).mp hab) ((hiff b c).mp hbc))⟩
  have hs := List.sorted_insertionSort (fun a b => cmpUR tb a b ≠ Ordering.gt) l
  unfold sortStandings
  rw [List.Sorted, List.pairwise_reverse]
  exact hs.imp (fun hab =>
    key_le_imp_standingsOrder (tb.getD .UserId) _ _ ((hiff _ _).mp hab))

/-! ### The ranking engine: rank assignment (claims C4 and C10)

The rank-assignment pass of get_contests_ranklist (main.rs lines 1405-1488):
after sorting and reversing, ranks start at 0; a single-entry list gets rank
1 directly; then a loop over i in 0..len-1 compares entries i and i+1 and
either shares the rank or assigns the 1-based position.  The Rust loop bound
len-1 is an unsigned subtraction: for an empty list it underflows and the
handler panics, modelled here by assignRanks returning none. -/

/-- A standings entry with its rank replaced. -/
def withRank (u : UsersRanking) (n : ℕ) : UsersRanking := { u with rank := n }

/-- The write usersranking[i].rank = if rank == 0 then i+1 else rank
performed by every branch of the loop body. -/
def confirmRank (a : List UsersRanking) (i : ℕ) : List UsersRanking :=
  a.set i (withRank (a.getD i default)
    (if (a.getD i default).rank = 0 then i + 1 else (a.getD i default).rank))

/-- The branch usersranking[i+1].rank = usersranking[i].rank (sharing). -/
def shareStep (a : List UsersRanking) (i : ℕ) : List UsersRanking :=
  let b := confirmRank a i
  b.set (i + 1) (withRank (b.getD (i + 1) default) ((b.getD i default).rank))

/-- The branch usersranking[i+1].rank = i + 2 (1-based position). -/
def bumpStep (a : List UsersRanking) (i : ℕ) : List UsersRanking :=
  let b := confirmRank a i
  b.set (i + 1) (withRank (b.getD (i + 1) default) (i + 2))

/-- One iteration of the rank-assignment loop (main.rs lines 1409-1488):
share the rank when the totals are equal and — when a tie breaker is given —
the tie-break key is also equal; otherwise assign the 1-based position. -/
def rankStep (tb : Option TieBreaker) (a : List UsersRanking) (i : ℕ) :
    List UsersRanking :=
  if sumScores (a.getD i default) = sumScores (a.getD (i + 1) default) then
    match tb with
    | some .SubmissionTime =>
        if (a.getD i default).max_time = (a.getD (i + 1) default).max_time then
          shareStep a i
        else bumpStep a i
    | some .SubmissionCount =>
        if (a.getD i default).submission_count
            = (a.getD (i + 1) default).submission_count then
          shareStep a i
        else bumpStep a i
    | some .UserId =>
        if (a.getD i default).user.id = (a.getD (i + 1) default).user.id then
          shareStep a i
        else bumpStep a i
    | none => shareStep a i
  else bumpStep a i

/-- The loop for i in 0..len-1 over the standings. -/
def rankLoop (tb : Option TieBreaker) (a : List UsersRanking) :
    List UsersRanking :=
  (List.range (a.length - 1)).foldl (rankStep tb) a

/-- The whole rank-assignment pass.  For an empty list the source's loop
bound 0..len-1 underflows (usize) and the handler panics — rendered as
none.  A one-entry list is given rank 1 before the (then empty) loop. -/
def assignRanks (tb : Option TieBreaker) (a : List UsersRanking) :
    Option (List UsersRanking) :=
  if a.length = 0 then none
  else some (rankLoop tb
    (if a.length = 1 then a.set 0 (withRank (a.getD 0 default) 1) else a))

/-- The full standings pipeline: sort, reverse, assign ranks. -/
def produceStandings (tb : Option TieBreaker) (entries : List UsersRanking) :
    Option (List UsersRanking) :=
  assignRanks tb (sortStandings tb entries)

/-- Whether two adjacent entries belong to one rank group: equal totals and
— when a tie breaker is given — an equal tie-break key (with no tie breaker,
equal totals alone suffice). -/
def groupEqb (tb : Option TieBreaker) (x y : UsersRanking) : Bool :=
  (sumScores x == sumScores y)
    && (match tb with
        | some .SubmissionTime => x.max_time == y.max_time
        | some .SubmissionCount => x.submission_count == y.submission_count
        | some .UserId => decide (x.user.id = y.user.id)
        | none => true)

/-- The shared-rank ("1-2-2-4") value of position j: position 0 has rank 1;
position j+1 shares position j's rank inside one group and otherwise gets
its 1-based position j+2. -/
def sharedRank (tb : Option TieBreaker) (a : List UsersRanking) : ℕ → ℕ
  | 0 => 1
  | j + 1 =>
      if groupEqb tb (a.getD j default) (a.getD (j + 1) default) then
        sharedRank tb a j
      else j + 2

theorem sharedRank_pos (tb : Option TieBreaker) (a : List UsersRanking)
    (j : ℕ) : 0 < sharedRank tb a j := by
  induction j with
  | zero => simp [sharedRank]
  | succ j ih =>
      unfold sharedRank
      split
      · exact ih
      · omega

theorem getD_set_self (l : List UsersRanking) (i : ℕ) (v : UsersRanking)
    (h : i < l.length) : (l.set i v).getD i default = v := by
  simp [List.getD_eq_getElem?_getD, List.getElem?_set_self', h]

theorem getD_set_ne (l : List UsersRanking) (i j : ℕ) (v : UsersRanking)
    (h : i ≠ j) : (l.set i v).getD j default = l.getD j default := by
  simp [List.getD_eq_getElem?_getD, List.getElem?_set_ne h]

theorem withRank_rank (u : UsersRanking) (n : ℕ) : (withRank u n).rank = n := rfl

theorem groupEqb_withRank (tb : Option TieBreaker) (x y : UsersRanking)
    (n m : ℕ) : groupEqb tb (withRank x n) (withRank y m) = groupEqb tb x y := rfl

theorem rankStep_getD (tb : Option TieBreaker) (a : List UsersRanking)
    (i : ℕ) (hi : i + 1 < a.length) :
    (rankStep tb a i).length = a.length
      ∧ (∀ j, j ≠ i → j ≠ i + 1 →
          (rankStep tb a i).getD j default = a.getD j default)
      ∧ (rankStep tb a i).getD i default
          = withRank (a.getD i default)
              (if (a.getD i default).rank = 0 then i + 1
               else (a.getD i default).rank)
      ∧ (rankStep tb a i).getD (i + 1) default
          = withRank (a.getD (i + 1) default)
              (if groupEqb tb (a.getD i default) (a.getD (i + 1) default) then
                 (if (a.getD i default).rank = 0 then i + 1
                  else (a.getD i default).rank)
               else i + 2) := by
  have hii : i < a.length := Nat.lt_of_succ_lt hi
  have hlen_c : (confirmRank a i).length = a.length := List.length_set a i _
  have hc_self : (confirmRank a i).getD i default
      = withRank (a.getD i default)
          (if (a.getD i default).rank = 0 then i + 1
           else (a.getD i default).rank) :=
    getD_set_self a i _ hii
  have hc_ne : ∀ j, j ≠ i → (confirmRank a i).getD j default = a.getD j default :=
    fun j hj => getD_set_ne a i j _ (fun he => hj he.symm)
  have hs : (shareStep a i).length = a.length
      ∧ (∀ j, j ≠ i → j ≠ i + 1 →
          (shareStep a i).getD j default = a.getD j default)
      ∧ (shareStep a i).getD i default
          = withRank (a.getD i default)
              (if (a.getD i default).rank = 0 then i + 1
               else (a.getD i default).rank)
      ∧ (shareStep a i).getD (i + 1) default
          = withRank (a.getD (i + 1) default)
              (if (a.getD i default).rank = 0 then i + 1
               else (a.getD i default).rank) := by
    unfold shareStep
    refine ⟨by simp [hlen_c], ?_, ?_, ?_⟩
    · intro j hj1 hj2
      rw [getD_set_ne _ _ _ _ (fun he => hj2 he.symm), hc_ne j hj1]
    · rw [getD_set_ne _ _ _ _ (by omega), hc_self]
    · rw [getD_set_self _ _ _ (by rw [hlen_c]; exact hi),
        hc_ne (i + 1) (by omega), hc_self, withRank_rank]
  have hb : (bumpStep a i).length = a.length
      ∧ (∀ j, j ≠ i → j ≠ i + 1 →
          (bumpStep a i).getD j default = a.getD j default)
      ∧ (bumpStep a i).getD i default
          = withRank (a.getD i default)
              (if (a.getD i default).rank = 0 then i + 1
               else (a.getD i default).rank)
      ∧ (bumpStep a i).getD (i + 1) default
          = withRank (a.getD (i + 1) default) (i + 2) := by
    unfold bumpStep
    refine ⟨by simp [hlen_c], ?_, ?_, ?_⟩
    · intro j hj1 hj2
      rw [getD_set_ne _ _ _ _ (fun he => hj2 he.symm), hc_ne j hj1]
    · rw [getD_set_ne _ _ _ _ (by omega), hc_self]
    · rw [getD_set_self _ _ _ (by rw [hlen_c]; exact hi), hc_ne (i + 1) (by omega)]
  unfold rankStep
  by_cases hsum : sumScores (a.getD i default)
      = sumScores (a.getD (i + 1) default)
  · rw [if_pos hsum]
    cases tb with
    | none =>
        refine ⟨hs.1, hs.2.1, hs.2.2.1, ?_⟩
        rw [hs.2.2.2,
          show groupEqb none (a.getD i default) (a.getD (i + 1) default) = true
            from by
              simp only [groupEqb, Bool.and_true, beq_iff_eq]
              exact hsum]
        simp
    | some tbv =>
        cases tbv with
        | SubmissionTime =>
            by_cases htie : (a.getD i default).max_time
                = (a.getD (i + 1) default).max_time
            · rw [if_pos htie]
              refine ⟨hs.1, hs.2.1, hs.2.2.1, ?_⟩
              rw [hs.2.2.2, show groupEqb (some .SubmissionTime)
                  (a.getD i default) (a.getD (i + 1) default) = true
                from by
                  simp only [groupEqb, Bool.and_eq_true, beq_iff_eq]
                  exact ⟨hsum, htie⟩]
              simp
            · rw [if_neg htie]
              refine ⟨hb.1, hb.2.1, hb.2.2.1, ?_⟩
              rw [hb.2.2.2, show groupEqb (some .SubmissionTime)
                  (a.getD i default) (a.getD (i + 1) default) = false
                from by
                  rw [Bool.eq_false_iff]
                  simp only [ne_eq, groupEqb, Bool.and_eq_true, beq_iff_eq]
                  exact fun hc => htie hc.2]
              simp
        | SubmissionCount =>
            by_cases htie : (a.getD i default).submission_count
                = (a.getD (i + 1) default).submission_count
            · rw [if_pos htie]
              refine ⟨hs.1, hs.2.1, hs.2.2.1, ?_⟩
              rw [hs.2.2.2, show groupEqb (some .SubmissionCount)
                  (a.getD i default) (a.getD (i + 1) default) = true
                from by
                  simp only [groupEqb, Bool.and_eq_true, beq_iff_eq]
                  exact ⟨hsum, htie⟩]
              simp
            · rw [if_neg htie]
              refine ⟨hb.1, hb.2.1, hb.2.2.1, ?_⟩
              rw [hb.2.2.2, show groupEqb (some .SubmissionCount)
                  (a.getD i default) (a.getD (i + 1) default) = false
                from by
                  rw [Bool.eq_false_iff]
                  simp only [ne_eq, groupEqb, Bool.and_eq_true, beq_iff_eq]
                  exact fun hc => htie hc.2]
              simp
        | UserId =>
            by_cases htie : (a.getD i default).user.id
                = (a.getD (i + 1) default).user.id
            · rw [if_pos htie]
              refine ⟨hs.1, hs.2.1, hs.2.2.1, ?_⟩
              rw [hs.2.2.2, show groupEqb (some .UserId)
                  (a.getD i default) (a.getD (i + 1) default) = true
                from by
                  simp only [groupEqb, Bool.and_eq_true, beq_iff_eq,
                    decide_eq_true_eq]
                  exact ⟨hsum, htie⟩]
              simp
            · rw [if_neg htie]
              refine ⟨hb.1, hb.2.1, hb.2.2.1, ?_⟩
              rw [hb.2.2.2, show groupEqb (some .UserId)
                  (a.getD i default) (a.getD (i + 1) default) = false
                from by
                  rw [Bool.eq_false_iff]
                  simp only [ne_eq, groupEqb, Bool.and_eq_true, beq_iff_eq,
                    decide_eq_true_eq]
                  exact fun hc => htie hc.2]
              simp
  · rw [if_neg hsum]
    refine ⟨hb.1, hb.2.1, hb.2.2.1, ?_⟩
    rw [hb.2.2.2, show groupEqb tb (a.getD i default) (a.getD (i + 1) default)
        = false from by
          rw [Bool.eq_false_iff]
          simp only [ne_eq, groupEqb, Bool.and_eq_true, beq_iff_eq]
          exact fun hc => hsum hc.1]
    simp

theorem getD_rank_zero (a : List UsersRanking) (h0 : ∀ x ∈ a, x.rank = 0)
    (j : ℕ) : (a.getD j default).rank = 0 := by
  by_cases hj : j < a.length
  · refine h0 _ ?_
    rw [List.getD_eq_getElem?_getD, List.getElem?_eq_getElem hj]
    exact List.getElem_mem hj
  · rw [List.getD_eq_getElem?_getD, List.getElem?_eq_none (by omega)]
    rfl

theorem rankLoop_ranks (tb : Option TieBreaker) (a : List UsersRanking)
    (h0 : ∀ x ∈ a, x.rank = 0) (hn : 2 ≤ a.length) (k : ℕ)
    (hk : k ≤ a.length - 1) :
    ((List.range k).foldl (rankStep tb) a).length = a.length
      ∧ ∀ j, ((List.range k).foldl (rankStep tb) a).getD j default
          = withRank (a.getD j default)
              (if 1 ≤ k ∧ j ≤ k then sharedRank tb a j else 0) := by
  induction k with
  | zero =>
      refine ⟨rfl, fun j => ?_⟩
      simp only [List.range_zero, List.foldl_nil]
      have hF : ¬(1 ≤ 0 ∧ j ≤ 0) := by omega
      rw [if_neg hF, show withRank (a.getD j default) 0
          = withRank (a.getD j default) ((a.getD j default).rank)
        from by rw [getD_rank_zero a h0 j]]
      rfl
  | succ k ih =>
      obtain ⟨ihlen, ihget⟩ := ih (by omega)
      have hstep := rankStep_getD tb ((List.range k).foldl (rankStep tb) a) k
        (by omega)
      have hfold : (List.range (k + 1)).foldl (rankStep tb) a
          = rankStep tb ((List.range k).foldl (rankStep tb) a) k := by
        rw [List.range_succ, List.foldl_append, List.foldl_cons, List.foldl_nil]
      rw [hfold]
      refine ⟨by rw [hstep.1, ihlen], fun j => ?_⟩
      -- the rank the step writes at position k
      have hconfirm :
          (if (((List.range k).foldl (rankStep tb) a).getD k default).rank = 0
           then k + 1
           else (((List.range k).foldl (rankStep tb) a).getD k default).rank)
            = sharedRank tb a k := by
        rw [ihget k]
        by_cases hk1 : 1 ≤ k
        · have hT : (1 ≤ k ∧ k ≤ k) := by omega
          rw [if_pos hT, withRank_rank]
          have hpos : ¬ sharedRank tb a k = 0 := by
            have := sharedRank_pos tb a k
            omega
          rw [if_neg hpos]
        · have hk0 : k = 0 := by omega
          subst hk0
          have hF : ¬((1 : ℕ) ≤ 0 ∧ (0 : ℕ) ≤ 0) := by omega
          rw [if_neg hF, withRank_rank, if_pos rfl]
          rfl
      by_cases hjk : j = k
      · rw [hjk, hstep.2.2.1, hconfirm, ihget k]
        have hT : (1 ≤ k + 1 ∧ k ≤ k + 1) := by omega
        rw [if_pos hT]
        rfl
      · by_cases hjk1 : j = k + 1
        · rw [hjk1, hstep.2.2.2, hconfirm, ihget (k + 1), ihget k]
          have hF : ¬(1 ≤ k ∧ k + 1 ≤ k) := by omega
          rw [if_neg hF]
          have hT : (1 ≤ k + 1 ∧ k + 1 ≤ k + 1) := by omega
          rw [if_pos hT, groupEqb_withRank]
          have hsh : sharedRank tb a (k + 1)
              = if groupEqb tb (a.getD k default) (a.getD (k + 1) default)
                then sharedRank tb a k
                else k + 2 := rfl
          rw [hsh]
          rfl
        · rw [hstep.2.1 j hjk hjk1, ihget j]
          by_cases hc : 1 ≤ k ∧ j ≤ k
          · have hT : (1 ≤ k + 1 ∧ j ≤ k + 1) := by omega
            rw [if_pos hc, if_pos hT]
          · have hF : ¬(1 ≤ k + 1 ∧ j ≤ k + 1) := by omega
            rw [if_neg hc, if_neg hF]

/-- C4 (amended): in every standings list, ranks follow the recursion
sharedRank: position 0 has rank 1, and position j+1 shares position j's rank
exactly when the two entries have equal totals AND — when a tie breaker was
explicitly given — an equal tie-break key; otherwise it receives its 1-based
position j+2 ("1-2-2-4").  When NO tie breaker is given (the default), equal
totals alone make adjacent entries share a rank, regardless of the user
id. -/
theorem rank_assignment_semantics (tb : Option TieBreaker)
    (a : List UsersRanking) (h0 : ∀ x ∈ a, x.rank = 0) (j : ℕ)
    (hj : j < a.length) :
    ∃ out, assignRanks tb a = some out
      ∧ (out.getD j default).rank = sharedRank tb a j := by
  unfold assignRanks
  have hnz : ¬ a.length = 0 := by omega
  rw [if_neg hnz]
  by_cases h1 : a.length = 1
  · rw [if_pos h1]
    refine ⟨_, rfl, ?_⟩
    have hj0 : j = 0 := by omega
    subst hj0
    unfold rankLoop
    rw [List.length_set, h1]
    simp only [Nat.sub_self, List.range_zero, List.foldl_nil]
    rw [getD_set_self a 0 _ (by omega), withRank_rank]
    rfl
  · rw [if_neg h1]
    have hn : 2 ≤ a.length := by omega
    refine ⟨_, rfl, ?_⟩
    unfold rankLoop
    rw [(rankLoop_ranks tb a h0 hn (a.length - 1) le_rfl).2 j, withRank_rank]
    have hT : (1 ≤ a.length - 1 ∧ j ≤ a.length - 1) := by omega
    rw [if_pos hT]

/-- C4 witness: the shared-rank characterisation instantiated at the first
position of a one-entry list. -/
theorem rank_assignment_semantics_witness :
    ∃ out,
      assignRanks (some .UserId)
          [{ user := { id := some 7, name := "u".toList }, rank := 0,
             scores := [10], max_time := 4, submission_count := 1 }] = some out
        ∧ (out.getD 0 default).rank
            = sharedRank (some .UserId)
                [{ user := { id := some 7, name := "u".toList }, rank := 0,
                   scores := [10], max_time := 4, submission_count := 1 }] 0 :=
  rank_assignment_semantics (some .UserId) _ (by decide) 0 (by decide)

/-- C4 (counterexample): with NO tie-breaker in the ranking rule (the
default), two users with equal totals but distinct user ids — hence distinct
default (UserId) tie-break keys — still receive the same rank 1, where the
claim requires ranks 1 and 2. -/
theorem default_tiebreak_shares_rank :
    (produceStandings none
        [{ user := { id := some 1, name := "a".toList }, rank := 0,
           scores := [], max_time := 5, submission_count := 1 },
         { user := { id := some 2, name := "b".toList }, rank := 0,
           scores := [], max_time := 3, submission_count := 2 }]).map
        (fun l => l.map (fun u => (u.user.id, u.rank)))
      = some [(some 1, 1), (some 2, 1)] := by
  decide

/-- C10 (counterexample): on an empty standings list the rank pass does not
return an empty ranking — the loop bound len - 1 underflows (usize) and the
handler panics, modelled by none. -/
theorem rank_pass_empty_underflows : assignRanks none [] = none := rfl

/-- C10 (amended): the rank-assignment pass is total for every NON-EMPTY
standings list; the empty list is the sole input on which it panics. -/
theorem rank_pass_total_nonempty (tb : Option TieBreaker)
    (a : List UsersRanking) (h : a ≠ []) :
    (assignRanks tb a).isSome = true := by
  unfold assignRanks
  rw [if_neg (by simpa using h)]
  rfl

/-- C10 witness: totality at a concrete one-entry list. -/
theorem rank_pass_total_nonempty_witness :
    (assignRanks none
        [{ user := { id := some 1, name := "a".toList }, rank := 0,
           scores := [], max_time := 5, submission_count := 1 }]).isSome
      = true :=
  rank_pass_total_nonempty none _ (by decide)

/-! ### The ranking engine: dynamic scoring (claim C3)

The DynamicRanking branch of get_contests_ranklist (main.rs lines
1255-1334).  filtered is the gathered job list of one (user, problem) pair;
allScoped is what the source calls all_accepted_jobs: the jobs gathered for
that problem under the same scope WITHOUT a user or result filter (lines
1305-1310).  The f32 arithmetic is carried out over ℚ. -/

instance : Inhabited Case :=
  ⟨{ score := 0, input_file := [], answer_file := [], time_limit := 0,
     memory_limit := 0 }⟩

instance : Inhabited CaseResult :=
  ⟨{ id := 0, result := .Waiting, time := 0, memory := 0, info := [] }⟩

/-- Iterator::max_by_key on creation time: the LAST of the maxima. -/
def maxByCreated (jobs : List Job) : Option Job :=
  jobs.foldl (fun acc j =>
    match acc with
    | none => some j
    | some m => if m.created_time ≤ j.created_time then some j else some m) none

/-- Iterator::max_by on the f32 score: the LAST of the maxima. -/
def maxByScore (jobs : List Job) : Option Job :=
  jobs.foldl (fun acc j =>
    match acc with
    | none => some j
    | some m => if m.score ≤ j.score then some j else some m) none

/-- Job selection by the scoring rule (default Latest), main.rs lines
1281-1288 and 1337-1342. -/
def selectJob (rule : Option ScoringRule) (jobs : List Job) : Option Job :=
  match rule.getD .Latest with
  | .Latest => maxByCreated jobs
  | .Highest => maxByScore jobs

/-- The minimum recorded time on case i (CaseResult index i+1) over a job
list (main.rs lines 1319-1323); the source unwraps the minimum of a
nonempty list, rendered as 0 on the empty list.  Out-of-range indexing,
which panics in the source, is rendered with a default element. -/
def minCaseTime (jobs : List Job) (i : ℕ) : ℕ :=
  match (jobs.map (fun j => (j.cases.getD (i + 1) default).time)).min? with
  | some m => m
  | none => 0

/-- The DynamicRanking contribution of one (user, problem) pair as the
source computes it (main.rs lines 1273-1334): if no gathered job is
Accepted, the scoring rule selects one job and its static score is weighted
by 1 - frac; otherwise the representative is the most recently created of
ALL the gathered jobs (not just the accepted ones) and the per-case minimum
ranges over allScoped, the problem's jobs in scope with ANY result. -/
def dynContribution (frac : ℚ) (problem : Problem) (rule : Option ScoringRule)
    (filtered allScoped : List Job) : ℚ :=
  let accepted := filtered.filter (fun j => j.result == .Accepted)
  if accepted.length = 0 then
    match selectJob rule filtered with
    | some job => job.score * (1 - frac)
    | none => 0
  else
    match maxByCreated filtered with
    | some job =>
        (List.range problem.cases.length).foldl (fun s i =>
          s + (problem.cases.getD i default).score
                / ((job.cases.getD (i + 1) default).time : ℚ)
              * (minCaseTime allScoped i : ℚ) * frac
            + (problem.cases.getD i default).score * (1 - frac)) 0
    | none => 0

/-- The contribution as the claim states it: the representative is the most
recently created ACCEPTED job, and the fastest per-case time ranges over the
ACCEPTED jobs across all users in scope; each case contributes
score × (1 − frac) + score × frac × (fastest ÷ representative's time). -/
def dynContributionSpec (frac : ℚ) (problem : Problem)
    (filtered allScoped : List Job) : ℚ :=
  let accepted := filtered.filter (fun j => j.result == .Accepted)
  let acceptedAll := allScoped.filter (fun j => j.result == .Accepted)
  match maxByCreated accepted with
  | some rep =>
      (List.range problem.cases.length).foldl (fun s i =>
        s + (problem.cases.getD i default).score * (1 - frac)
          + (problem.cases.getD i default).score * frac
            * ((minCaseTime acceptedAll i : ℚ)
                / ((rep.cases.getD (i + 1) default).time : ℚ))) 0
  | none => 0

/-- An accepted job of user 3 on the one-case dynamic problem, case time
100µs, created at time 1. -/
def jobA : Job :=
  { id := 0, created_time := 1, updated_time := 1,
    submission := { source_code := [], language := [], user_id := 3,
                    contest_id := 0, problem_id := 0 },
    state := .Finished, result := .Accepted, score := 100,
    cases := [{ id := 0, result := .CompilationSuccess, time := 5, memory := 0,
                info := [] },
              { id := 1, result := .Accepted, time := 100, memory := 0,
                info := [] }] }

/-- A LATER, non-accepted job of the same user, case time 10µs. -/
def jobB : Job :=
  { id := 1, created_time := 2, updated_time := 2,
    submission := { source_code := [], language := [], user_id := 3,
                    contest_id := 0, problem_id := 0 },
    state := .Finished, result := .WrongAnswer, score := 0,
    cases := [{ id := 0, result := .CompilationSuccess, time := 5, memory := 0,
                info := [] },
              { id := 1, result := .WrongAnswer, time := 10, memory := 0,
                info := [] }] }

/-- An accepted job of ANOTHER user (user 4), case time 50µs. -/
def jobC : Job :=
  { id := 2, created_time := 1, updated_time := 1,
    submission := { source_code := [], language := [], user_id := 4,
                    contest_id := 0, problem_id := 0 },
    state := .Finished, result := .Accepted, score := 100,
    cases := [{ id := 0, result := .CompilationSuccess, time := 5, memory := 0,
                info := [] },
              { id := 1, result := .Accepted, time := 50, memory := 0,
                info := [] }] }

/-- The one-case DynamicRanking problem (score 100, frac 1/2) of the
concrete dynamic-scoring evaluation. -/
def dynProblem : Problem :=
  { id := 0, name := "d".toList, problem_type := .DynamicRanking,
    misc := { special_judge := none, dynamic_ranking_frac := some (1 / 2) },
    cases := [{ score := 100, input_file := [], answer_file := [],
                time_limit := 0, memory_limit := 0 }] }

/-- C3 (refuting evaluation): with user 3 holding accepted job jobA (case
time 100µs) and a later WrongAnswer job jobB (case time 10µs), and user 4
holding accepted jobC (case time 50µs), the code contributes 100: it divides
by the time of jobB — the most recent job, NOT the most recent accepted
job — and takes the minimum over all jobs in scope including the
non-accepted jobB.  The claim's formula — representative jobA, fastest
accepted time 50 — yields 75. -/
theorem dynamic_ranking_divergence :
    dynContribution (1 / 2) dynProblem none [jobA, jobB] [jobA, jobB, jobC]
        = 100
      ∧ dynContributionSpec (1 / 2) dynProblem [jobA, jobB] [jobA, jobB, jobC]
        = 75 := by
  have e1 : (OjResult.WrongAnswer == OjResult.Accepted) = false := rfl
  have e2 : (OjResult.Accepted == OjResult.Accepted) = true := rfl
  have hr : List.range 1 = [0] := rfl
  constructor <;>
    norm_num [dynContribution, dynContributionSpec, maxByCreated, selectJob,
      minCaseTime, jobA, jobB, jobC, dynProblem, List.min?, e1, e2, hr,
      List.filter_cons, List.filter_nil, List.foldl_cons,
      List.foldl_nil, List.getElem?_cons_zero, List.getElem?_cons_succ,
      Option.getD_some]
